import Mathlib

/-!
# Verification of the osu-link migration pipeline

Shallow embedding of the core of `LavaDesu/osu-link` (sources:
`src/main.rs`, `src/database.rs`, `src/processors.rs`; the two `.rs`
files contain two textually near-identical variants of the same
functions, embedded here once).

Modelling conventions:
* machine integers are `Nat` / `Int`, with wrap-around written explicitly
  (`% 2^64`) where the Rust release-mode semantics wraps;
* `f32` / `f64` fields are modelled as `Rat`; the pipeline only copies
  them around (and performs one division for the BPM), never branches on
  rounding behaviour;
* SQLite tables are lists of row structures plus an explicit
  autoincrement counter; `INSERT` appends, `SELECT ... LIMIT 1` is
  `List.find?`, `last_insert_rowid` is the counter value used;
* fallible operations return `Except Unit`;
* external effects that feed the functions (the `online.db` author-id
  lookup, `thread_rng` hash generation, the `WalkDir` directory walk and
  the channel contents) are explicit inputs;
* the on-disk store is a finite map from paths (component lists) to
  filesystem objects.
-/

/-- Difference between the Windows and the Unix epoch in 100 ns ticks
(`WIN_TO_UNIX_EPOCH` in `main.rs`). -/
def WIN_TO_UNIX_EPOCH : Nat := 621355968000000000

/-- `2^64`, the modulus of Rust `u64` arithmetic. -/
def U64_MOD : Nat := 18446744073709551616

/-- `i64::MAX`. -/
def I64_MAX : Nat := 9223372036854775807

/-- `u32::MAX`, the sentinel beatmap-set id of ungrouped maps. -/
def U32_MAX : Nat := 4294967295

/-- A beatmap record of the legacy `osu!.db` catalog (the fields of
`libosu::db::DbBeatmap` that the pipeline reads). -/
structure DbBeatmap where
  beatmap_id : Nat
  beatmap_set_id : Nat
  folder_name : String
  beatmap_file_name : String
  /-- `u64` Windows ticks. -/
  modification_date : Nat
  /-- value of `ranked_status as i8`. -/
  ranked_status : Int
  hash : String
  total_time : Nat
  std_star_rating : List (Nat × Rat)
  std_taiko_rating : List (Nat × Rat)
  std_ctb_rating : List (Nat × Rat)
  std_mania_rating : List (Nat × Rat)
deriving DecidableEq

/-- A beatmap event (`libosu::events::Event`); only the constructors the
pipeline distinguishes. -/
inductive BmEvent where
  | background (filename : String)
  | video (filename : String)
  | other
deriving DecidableEq

/-- Game mode (`libosu::prelude::Mode`). -/
inductive Mode where
  | osu
  | taiko
  | catch
  | mania
deriving DecidableEq

/-- `beatmap.mode as i8`. -/
def modeNum : Mode → Int
  | Mode.osu => 0
  | Mode.taiko => 1
  | Mode.catch => 2
  | Mode.mania => 3

/-- Difficulty block of a decoded beatmap. -/
structure BmDifficulty where
  approach_rate : Rat
  circle_size : Rat
  hp_drain_rate : Rat
  overall_difficulty : Rat
  slider_multiplier : Rat
  slider_tick_rate : Rat
deriving DecidableEq

/-- A timing point kind (`libosu::timing::TimingPointKind`): either
uninherited (carrying `mpb`) or inherited. -/
inductive TimingKind where
  | uninherited (mpb : Rat)
  | inherited
deriving DecidableEq

/-- A decoded beatmap (`libosu::beatmap::Beatmap`, fields the pipeline
reads). -/
structure Beatmap where
  beatmap_id : Nat
  artist : String
  artist_unicode : String
  audio_filename : String
  creator : String
  preview_time : Int
  source : String
  tags : List String
  title : String
  title_unicode : String
  events : List BmEvent
  difficulty : BmDifficulty
  timing_points : List TimingKind
  mode : Mode
  audio_leadin : Nat
  beat_divisor : Nat
  countdown : Bool
  distance_spacing : Rat
  grid_size : Nat
  letterbox_in_breaks : Bool
  stack_leniency : Rat
  bookmarks : List Int
  timeline_zoom : Rat
  difficulty_name : String
  widescreen_storyboard : Bool
  epilepsy_warning : Bool
deriving DecidableEq

/-- `HashSet::insert` on the model of a hash set as a duplicate-free
list. -/
def hsInsert (s : List Nat) (x : Nat) : List Nat :=
  if s.contains x then s else s ++ [x]

/-- `HashSet::remove`. -/
def hsRemove (s : List Nat) (x : Nat) : List Nat :=
  s.filter (fun y => y ≠ x)

/-- `get_beatmaps` (`main.rs`): collect the stable beatmap ids into a
set, drop the ids already present in the lazer `BeatmapInfo` table, keep
the legacy records whose id survived and is neither the unsubmitted
sentinel `0` nor in an ungrouped set (`u32::MAX`), and sort by beatmap
id.  Returns `(stable_len, lazer_len, selection)` like the source.
`sort_unstable_by` on the id is modelled by `mergeSort` on the same key
(the source only ever relies on the ordering, and ids of selected maps
are keys into a set, so stability is immaterial). -/
def get_beatmaps (beatmaps : List DbBeatmap) (lazer_beatmaps : List Nat) :
    Nat × Nat × List DbBeatmap :=
  let stable0 := beatmaps.foldl (fun s bm => hsInsert s bm.beatmap_id) []
  let stable := lazer_beatmaps.foldl hsRemove stable0
  let selected := beatmaps.filter fun bm =>
    stable.contains bm.beatmap_id && bm.beatmap_id ≠ 0 && bm.beatmap_set_id ≠ U32_MAX
  (stable0.length, lazer_beatmaps.length,
    selected.mergeSort (fun a b => a.beatmap_id ≤ b.beatmap_id))

/-- The `processed_sets` fold at the top of `BeatmapThread::start`
(`main.rs`) / `BeatmapProcessor::start` (`processors.rs`): the first
beatmap seen for each set id is tagged `is_main = true`, later ones
`false`. -/
def tagMain : List DbBeatmap → List Nat → List (DbBeatmap × Bool)
  | [], _ => []
  | bm :: rest, processed_sets =>
    if processed_sets.contains bm.beatmap_set_id then
      (bm, false) :: tagMain rest processed_sets
    else
      (bm, true) :: tagMain rest (processed_sets ++ [bm.beatmap_set_id])

/-- The event scan of `insert_beatmap_metadata`: walk the event list,
record the first `Background` or the first `Video` event — whichever
comes first — and `break` immediately. -/
def scanEvents : List BmEvent → Option String × Option String
  | [] => (none, none)
  | BmEvent.background bg :: _ => (some bg, none)
  | BmEvent.video vid :: _ => (none, some vid)
  | BmEvent.other :: rest => scanEvents rest

/-- The `DateAdded` computation of `insert_beatmapset_info`:
`(db_beatmap.modification_date - WIN_TO_UNIX_EPOCH) * 100` in wrapping
`u64` arithmetic (release-mode Rust), then `try_into::<i64>()`, which
fails exactly when the `u64` value exceeds `i64::MAX`.  The `?` on
`try_into` propagates as a per-entry error. -/
def legacyTicksToUnixNanos (ticks : Nat) : Except Unit Nat :=
  let diff := (ticks + U64_MOD - WIN_TO_UNIX_EPOCH) % U64_MOD
  let scaled := (diff * 100) % U64_MOD
  if scaled ≤ I64_MAX then Except.ok scaled else Except.error ()

/-- A `BeatmapDifficulty` row. -/
structure DifficultyRow where
  id : Nat
  approach_rate : Rat
  circle_size : Rat
  hp_drain_rate : Rat
  overall_difficulty : Rat
  slider_multiplier : Rat
  slider_tick_rate : Rat
deriving DecidableEq

/-- The twelve compared columns of a `BeatmapMetadata` row. -/
structure MetadataFields where
  artist : String
  artist_unicode : String
  audio_file : String
  author : String
  background_file : Option String
  preview_time : Int
  source : String
  tags : String
  title : String
  title_unicode : String
  video_file : Option String
  author_id : Int
deriving DecidableEq

/-- A `BeatmapMetadata` row. -/
structure MetadataRow where
  id : Nat
  fields : MetadataFields
deriving DecidableEq

/-- A `BeatmapSetInfo` row. -/
structure SetInfoRow where
  id : Nat
  delete_pending : Bool
  hash : String
  metadata_id : Nat
  online_set_id : Nat
  /-- the `Protected` column (`protected` is a Lean keyword). -/
  protected_flag : Bool
  status : Int
  /-- `DateAdded`, stored as the nanosecond value the source renders to
  RFC 3339 (the rendering is injective on the value, so the value itself
  is the model). -/
  date_added : Nat
deriving DecidableEq

/-- A `BeatmapInfo` row (all 27 inserted columns, plus the `Hash` column
that `insert_hashes` back-fills later). -/
structure InfoRow where
  id : Nat
  audio_leadin : Nat
  base_difficulty_id : Nat
  beat_divisor : Nat
  beatmapset_info_id : Nat
  countdown : Bool
  distance_spacing : Rat
  grid_size : Nat
  hidden : Bool
  letterbox_in_breaks : Bool
  md5_hash : String
  metadata_id : Nat
  online_beatmap_id : Nat
  path : String
  ruleset_id : Int
  special_style : Bool
  stack_leniency : Rat
  star_difficulty : Rat
  stored_bookmarks : String
  timeline_zoom : Rat
  version : String
  widescreen_storyboard : Bool
  status : Int
  bpm : Rat
  length : Nat
  epilepsy_warning : Bool
  countdown_offset : Bool
  samples_match_playback_rate : Bool
  hash : Option String
deriving DecidableEq

/-- A `FileInfo` row of the content store. -/
structure FileInfoRow where
  id : Nat
  hash : String
  reference_count : Nat
deriving DecidableEq

/-- A `BeatmapSetFileInfo` row. -/
structure SetFileRow where
  beatmapset_info_id : Nat
  file_info_id : Nat
  filename : String
deriving DecidableEq

/-- The lazer `client.db` tables the pipeline writes, with one explicit
autoincrement counter per table. -/
structure LazerDb where
  difficulties : List DifficultyRow
  next_difficulty_id : Nat
  metadata : List MetadataRow
  next_metadata_id : Nat
  set_infos : List SetInfoRow
  next_set_info_id : Nat
  infos : List InfoRow
  next_info_id : Nat
  file_infos : List FileInfoRow
  next_file_info_id : Nat
  set_files : List SetFileRow
deriving DecidableEq

/-- An empty target database; counters start at `1` like SQLite rowids. -/
def emptyDb : LazerDb :=
  { difficulties := [], next_difficulty_id := 1
    metadata := [], next_metadata_id := 1
    set_infos := [], next_set_info_id := 1
    infos := [], next_info_id := 1
    file_infos := [], next_file_info_id := 1
    set_files := [] }

/-- `insert_beatmap_difficulty`: insert a fresh `BeatmapDifficulty` row,
return `last_insert_rowid`. -/
def insert_beatmap_difficulty (db : LazerDb) (beatmap : Beatmap) :
    LazerDb × Nat :=
  let row : DifficultyRow :=
    { id := db.next_difficulty_id
      approach_rate := beatmap.difficulty.approach_rate
      circle_size := beatmap.difficulty.circle_size
      hp_drain_rate := beatmap.difficulty.hp_drain_rate
      overall_difficulty := beatmap.difficulty.overall_difficulty
      slider_multiplier := beatmap.difficulty.slider_multiplier
      slider_tick_rate := beatmap.difficulty.slider_tick_rate }
  ({ db with
      difficulties := db.difficulties ++ [row]
      next_difficulty_id := db.next_difficulty_id + 1 },
    db.next_difficulty_id)

/-- The metadata field tuple `insert_beatmap_metadata` compares and
inserts: the decoded text fields, the first background/video event, and
the author id from the `online.db` lookup (`unwrap_or(0)` when the row
is absent). -/
def buildMetadataFields (beatmap : Beatmap) (mapperLookup : Option Int) :
    MetadataFields :=
  let mapper_id := mapperLookup.getD 0
  let scanned := scanEvents beatmap.events
  { artist := beatmap.artist
    artist_unicode := beatmap.artist_unicode
    audio_file := beatmap.audio_filename
    author := beatmap.creator
    background_file := scanned.1
    preview_time := beatmap.preview_time
    source := beatmap.source
    tags := String.intercalate " " beatmap.tags
    title := beatmap.title
    title_unicode := beatmap.title_unicode
    video_file := scanned.2
    author_id := mapper_id }

/-- SQLite `=` on the two nullable columns (`BackgroundFile`,
`VideoFile`): a comparison whose either side is NULL evaluates to NULL,
which is not true, so a row can only match when both sides are non-NULL
and equal.  (rusqlite binds an `Option::None` parameter as SQL NULL.) -/
def sqlEq (a b : Option String) : Bool :=
  match a, b with
  | some x, some y => x = y
  | _, _ => false

/-- The `WHERE` clause of the `SELECT ID FROM BeatmapMetadata` lookup:
the ten never-NULL columns compare with ordinary equality (the tool only
binds non-NULL strings and integers there), while `BackgroundFile` and
`VideoFile` use SQL `=` semantics on nullable values. -/
def metadataSqlMatch (rf f : MetadataFields) : Bool :=
  rf.artist = f.artist && rf.artist_unicode = f.artist_unicode &&
    rf.audio_file = f.audio_file && rf.author = f.author &&
    sqlEq rf.background_file f.background_file &&
    rf.preview_time = f.preview_time && rf.source = f.source &&
    rf.tags = f.tags && rf.title = f.title &&
    rf.title_unicode = f.title_unicode &&
    sqlEq rf.video_file f.video_file && rf.author_id = f.author_id

/-- `insert_beatmap_metadata`: look the field tuple up with
`SELECT ... LIMIT 1` (NULL-semantics comparison per column); on a hit
return the existing row id, otherwise insert a new row and return
`last_insert_rowid`. -/
def insert_beatmap_metadata (db : LazerDb) (mapperLookup : Option Int)
    (beatmap : Beatmap) : LazerDb × Nat :=
  let fields := buildMetadataFields beatmap mapperLookup
  match db.metadata.find? (fun r => metadataSqlMatch r.fields fields) with
  | some r => (db, r.id)
  | none =>
    ({ db with
        metadata := db.metadata ++ [{ id := db.next_metadata_id, fields }]
        next_metadata_id := db.next_metadata_id + 1 },
      db.next_metadata_id)

/-- The row contents `insert_beatmapset_info` writes (both on the insert
and on the `ON CONFLICT ... DO UPDATE` path). -/
def setInfoFields (db_beatmap : DbBeatmap) (metadata_id : Nat)
    (random_hash : String) (date_added : Nat) (id : Nat) : SetInfoRow :=
  { id
    delete_pending := false
    hash := random_hash
    metadata_id
    online_set_id := db_beatmap.beatmap_set_id
    protected_flag := false
    status := db_beatmap.ranked_status - 3
    date_added }

/-- `insert_beatmapset_info`: select the row with this
`OnlineBeatmapSetID`; when it is absent or `force` is set, upsert
(`INSERT ... ON CONFLICT (OnlineBeatmapSetID) DO UPDATE`) a row built
from a freshly generated random hash (`random_hash` input) and the
converted modification timestamp (whose `try_into` failure propagates).
Return the pre-existing row id when there was one, otherwise
`last_insert_rowid`. -/
def insert_beatmapset_info (db : LazerDb) (db_beatmap : DbBeatmap)
    (metadata_id : Nat) (force : Bool) (random_hash : String) :
    Except Unit (LazerDb × Nat) :=
  let res := db.set_infos.find? (fun r => r.online_set_id = db_beatmap.beatmap_set_id)
  if res.isNone || force then
    match legacyTicksToUnixNanos db_beatmap.modification_date with
    | Except.error e => Except.error e
    | Except.ok date_added =>
      let db' :=
        if db.set_infos.any (fun r => r.online_set_id = db_beatmap.beatmap_set_id) then
          { db with
              set_infos := db.set_infos.map fun r =>
                if r.online_set_id = db_beatmap.beatmap_set_id then
                  setInfoFields db_beatmap metadata_id random_hash date_added r.id
                else r }
        else
          { db with
              set_infos := db.set_infos ++
                [setInfoFields db_beatmap metadata_id random_hash date_added
                  db.next_set_info_id]
              next_set_info_id := db.next_set_info_id + 1 }
      match res with
      | some r => Except.ok (db', r.id)
      | none => Except.ok (db', db.next_set_info_id)
  else
    match res with
    | some r => Except.ok (db, r.id)
    | none => Except.ok (db, db.next_set_info_id)

/-- The BPM loop of `insert_beatmap_info`: `bpm` starts at `0.0` and the
loop breaks at the first uninherited timing point, setting
`60_000.0 / mpb`. -/
def firstUninheritedBpm : List TimingKind → Rat
  | [] => 0
  | TimingKind.uninherited mpb :: _ => 60000 / mpb
  | TimingKind.inherited :: rest => firstUninheritedBpm rest

/-- The per-mode star-rating list selected by `insert_beatmap_info`. -/
def modeRatings (beatmap : Beatmap) (db_beatmap : DbBeatmap) : List (Nat × Rat) :=
  match beatmap.mode with
  | Mode.osu => db_beatmap.std_star_rating
  | Mode.taiko => db_beatmap.std_taiko_rating
  | Mode.catch => db_beatmap.std_ctb_rating
  | Mode.mania => db_beatmap.std_mania_rating

/-- The star rating with no mods applied (`Mods::None` is the bit value
`0`), `0.0` when absent. -/
def noModRating (ratings : List (Nat × Rat)) : Rat :=
  match ratings.find? (fun t => t.1 = 0) with
  | some t => t.2
  | none => 0

/-- `insert_beatmap_info`: insert the `BeatmapInfo` row.  The `Hash`
column is not part of the insert (it is back-filled by
`insert_hashes`). -/
def insert_beatmap_info (db : LazerDb) (beatmap : Beatmap)
    (db_beatmap : DbBeatmap) (beatmapset_info_id : Nat)
    (difficulty_id : Nat) (metadata_id : Nat) : LazerDb :=
  let row : InfoRow :=
    { id := db.next_info_id
      audio_leadin := beatmap.audio_leadin
      base_difficulty_id := difficulty_id
      beat_divisor := beatmap.beat_divisor
      beatmapset_info_id
      countdown := beatmap.countdown
      distance_spacing := beatmap.distance_spacing
      grid_size := beatmap.grid_size
      hidden := false
      letterbox_in_breaks := beatmap.letterbox_in_breaks
      md5_hash := db_beatmap.hash
      metadata_id
      online_beatmap_id := db_beatmap.beatmap_id
      path := db_beatmap.beatmap_file_name
      ruleset_id := modeNum beatmap.mode
      special_style := false
      stack_leniency := beatmap.stack_leniency
      star_difficulty := noModRating (modeRatings beatmap db_beatmap)
      stored_bookmarks := String.intercalate "," (beatmap.bookmarks.map toString)
      timeline_zoom := beatmap.timeline_zoom
      version := beatmap.difficulty_name
      widescreen_storyboard := beatmap.widescreen_storyboard
      status := db_beatmap.ranked_status - 3
      bpm := firstUninheritedBpm beatmap.timing_points
      length := db_beatmap.total_time
      epilepsy_warning := beatmap.epilepsy_warning
      countdown_offset := false
      samples_match_playback_rate := false
      hash := none }
  { db with infos := db.infos ++ [row], next_info_id := db.next_info_id + 1 }

/-- A decoded entry on the channel into the Metadata Inserter
(`BeatmapProcessedContext` / `context::BeatmapProcessed`), together with
the two external effects its insertion consumes: the `online.db` author
lookup and the random `BeatmapSetInfo` hash. -/
structure BeatmapProcessed where
  db_beatmap : DbBeatmap
  beatmap : Beatmap
  is_main : Bool
  mapper_lookup : Option Int
  random_hash : String
deriving DecidableEq

/-- `insert_beatmap`: difficulty row, metadata row, set row, entry row,
in that order.  The only fallible step of the embedding is the set-row
timestamp conversion; its error leaves the difficulty and metadata rows
in place (the shared transaction has no per-entry savepoint) and is
reported to the caller. -/
def insert_beatmap (db : LazerDb) (ctx : BeatmapProcessed) :
    LazerDb × Except Unit Nat :=
  let step1 := insert_beatmap_difficulty db ctx.beatmap
  let step2 := insert_beatmap_metadata step1.1 ctx.mapper_lookup ctx.beatmap
  match insert_beatmapset_info step2.1 ctx.db_beatmap step2.2 ctx.is_main
      ctx.random_hash with
  | Except.error e => (step2.1, Except.error e)
  | Except.ok (db3, beatmapset_info_id) =>
    (insert_beatmap_info db3 ctx.beatmap ctx.db_beatmap beatmapset_info_id
        step1.2 step2.2,
      Except.ok beatmapset_info_id)

/-- One entry yielded by the recursive `WalkDir` walk: its path relative
to the beatmapset folder and whether it is a regular file. -/
structure WalkEntry where
  rel : String
  is_file : Bool
deriving DecidableEq

/-- A hash request (`HashRequestContext` / `context::HashRequest`). -/
structure HashRequest where
  beatmap_id : Nat
  beatmapset_id : Nat
  folder_name : String
  file_name : String
  beatmapset_info_id : Nat
  stripped_path : String
  full_path : String
deriving DecidableEq

/-- The walk loop body of `insert_beatmaps`: `let entry = entry?` aborts
on the first walk error, non-files are skipped. -/
def walkFiles : List (Except Unit WalkEntry) → Except Unit (List WalkEntry)
  | [] => Except.ok []
  | Except.error e :: _ => Except.error e
  | Except.ok en :: rest =>
    match walkFiles rest with
    | Except.error e => Except.error e
    | Except.ok l => Except.ok (if en.is_file then en :: l else l)

/-- The hash request `insert_beatmaps` sends for one regular file of a
main entry's folder. -/
def mkHashRequest (ctx : BeatmapProcessed) (beatmapset_info_id : Nat)
    (bms_path : String) (en : WalkEntry) : HashRequest :=
  { beatmap_id := ctx.db_beatmap.beatmap_id
    beatmapset_id := ctx.db_beatmap.beatmap_set_id
    folder_name := ctx.db_beatmap.folder_name
    file_name := ctx.db_beatmap.beatmap_file_name
    beatmapset_info_id
    stripped_path := en.rel
    full_path := bms_path ++ "/" ++ en.rel }

/-- `insert_beatmaps`: drain the channel of decoded entries.  A failing
`insert_beatmap` is logged and the loop continues; on success of a main
entry the beatmapset folder (`stable/Songs/<folder>`, enumerated by the
`walkFn` input) is walked and one hash request per regular file is sent;
a walk error propagates out of the function (`entry?`).  The sent
requests are accumulated in the state (the unbounded channel). -/
def insert_beatmaps (stable_songs : String)
    (walkFn : String → List (Except Unit WalkEntry)) :
    LazerDb × List HashRequest → List BeatmapProcessed →
    Except Unit (LazerDb × List HashRequest)
  | st, [] => Except.ok st
  | st, ctx :: rest =>
    let step := insert_beatmap st.1 ctx
    match step.2 with
    | Except.error _ => insert_beatmaps stable_songs walkFn (step.1, st.2) rest
    | Except.ok beatmapset_info_id =>
      if ctx.is_main then
        let bms_path := stable_songs ++ "/" ++ ctx.db_beatmap.folder_name
        match walkFiles (walkFn bms_path) with
        | Except.error e => Except.error e
        | Except.ok files =>
          insert_beatmaps stable_songs walkFn
            (step.1,
              st.2 ++ files.map (mkHashRequest ctx beatmapset_info_id bms_path))
            rest
      else
        insert_beatmaps stable_songs walkFn (step.1, st.2) rest

/-- A hash result (`HashProcessedContext` / `context::HashProcessed`). -/
structure HashProcessed where
  request : HashRequest
  hash : String
deriving DecidableEq

/-- A filesystem object of the lazer data directory: a directory, a
regular file, or a symbolic link (its target kept as the opaque source
path string). -/
inductive FsObj where
  | dir
  | file
  | symlink (target : String)
deriving DecidableEq

/-- A path, as its list of components. -/
abbrev FsPath := List String

/-- The file store, a finite map from paths to objects (kept one entry
per path by construction of `fsSet`). -/
abbrev Fs := List (FsPath × FsObj)

/-- Look a path up. -/
def fsLookup (fs : Fs) (p : FsPath) : Option FsObj :=
  match fs.find? (fun e => e.1 = p) with
  | some e => some e.2
  | none => none

/-- Bind a path to an object, replacing any previous binding. -/
def fsSet (fs : Fs) (p : FsPath) (o : FsObj) : Fs :=
  fs.filter (fun e => e.1 ≠ p) ++ [(p, o)]

/-- `std::fs::create_dir_all`, one component at a time: an existing
directory is kept, a missing one is created, and any other object in the
way is an error.  (A symlink pointing at a directory would be followed
by the real call; the tool only ever creates symlinks at full-digest
leaf paths, never at the 1- and 2-character directory levels, so the
distinction is unreachable here.) -/
def createDirAllGo (fs : Fs) (done : FsPath) : List String → Except Unit Fs
  | [] => Except.ok fs
  | c :: rest =>
    match fsLookup fs (done ++ [c]) with
    | some FsObj.dir => createDirAllGo fs (done ++ [c]) rest
    | some FsObj.file => Except.error ()
    | some (FsObj.symlink _) => Except.error ()
    | none => createDirAllGo (fsSet fs (done ++ [c]) FsObj.dir) (done ++ [c]) rest

/-- `std::fs::create_dir_all` on a full path. -/
def createDirAll (fs : Fs) (p : FsPath) : Except Unit Fs :=
  createDirAllGo fs [] p

/-- `std::fs::read_link`: succeeds exactly on symlinks. -/
def readLink (fs : Fs) (p : FsPath) : Option String :=
  match fsLookup fs p with
  | some (FsObj.symlink t) => some t
  | _ => none

/-- `Path::exists` as consulted by `insert_hashes`.  The real call
follows symlinks (a dangling link reports `false`), but the source only
evaluates it after `read_link` has failed — the `&&` short-circuits — so
it is never consulted on a symlink and plain binding presence is the
exact semantics at every reachable call. -/
def pathExists (fs : Fs) (p : FsPath) : Bool :=
  (fsLookup fs p).isSome

/-- `std::os::unix::fs::symlink`: fails if anything is already bound at
the new path or its parent directory is missing. -/
def symlinkCreate (fs : Fs) (p : FsPath) (target : String) : Except Unit Fs :=
  match fsLookup fs p with
  | some _ => Except.error ()
  | none =>
    match fsLookup fs p.dropLast with
    | some FsObj.dir => Except.ok (fsSet fs p (FsObj.symlink target))
    | _ => Except.error ()

/-- The directory holding the content-addressed link of a digest:
`<lazer>/files/<hex[0..1]>/<hex[0..2]>`. -/
def linkDir (lazer : FsPath) (hash : String) : FsPath :=
  lazer ++ ["files", hash.take 1, hash.take 2]

/-- The content-addressed link path: `<lazer>/files/<h[0..1]>/<h[0..2]>/<h>`. -/
def linkPath (lazer : FsPath) (hash : String) : FsPath :=
  linkDir lazer hash ++ [hash]

/-- The link-materialization tail of the `insert_hashes` loop body
(unix variant): `create_dir_all` on the digest directory — its `?`
propagates — then create the symlink only when `read_link` fails and the
path does not exist; a symlink failure propagates through `?` as well.
(The windows variant differs only in using `hard_link` guarded by
`!path.exists()`.) -/
def materializeLink (lazer : FsPath) (fs : Fs) (hash : String)
    (full_path : String) : Except Unit Fs :=
  match createDirAll fs (linkDir lazer hash) with
  | Except.error e => Except.error e
  | Except.ok fs1 =>
    let p := linkPath lazer hash
    if (readLink fs1 p).isNone && !pathExists fs1 p then
      symlinkCreate fs1 p full_path
    else
      Except.ok fs1

/-- `INSERT OR IGNORE INTO FileInfo (Hash, ReferenceCount) VALUES (?, 0)`:
a no-op when a row with this hash exists, otherwise a fresh row with
reference count `0`. -/
def fiInsertOrIgnore (db : LazerDb) (hash : String) : LazerDb :=
  if db.file_infos.any (fun r => r.hash = hash) then db
  else
    { db with
        file_infos := db.file_infos ++
          [{ id := db.next_file_info_id, hash, reference_count := 0 }]
        next_file_info_id := db.next_file_info_id + 1 }

/-- `UPDATE FileInfo SET ReferenceCount = ReferenceCount + 1 WHERE Hash = ?`. -/
def fiBump (db : LazerDb) (hash : String) : LazerDb :=
  { db with
      file_infos := db.file_infos.map fun r =>
        if r.hash = hash then { r with reference_count := r.reference_count + 1 }
        else r }

/-- The database part of one `insert_hashes` iteration:
`INSERT OR IGNORE` the `FileInfo` row with reference count `0`,
unconditionally `UPDATE ... SET ReferenceCount = ReferenceCount + 1`,
`SELECT` the row id (`query_row` errors if the row is somehow absent),
insert the `BeatmapSetFileInfo` mapping, and back-fill
`BeatmapInfo.Hash` when the relative filename equals the entry's
descriptor filename. -/
def insertHashDb (db : LazerDb) (h : HashProcessed) : Except Unit LazerDb :=
  let db2 : LazerDb := fiBump (fiInsertOrIgnore db h.hash) h.hash
  match db2.file_infos.find? (fun r => r.hash = h.hash) with
  | none => Except.error ()
  | some row =>
    let db3 : LazerDb :=
      { db2 with
          set_files := db2.set_files ++
            [{ beatmapset_info_id := h.request.beatmapset_info_id
               file_info_id := row.id
               filename := h.request.stripped_path }] }
    Except.ok <|
      if h.request.stripped_path = h.request.file_name then
        { db3 with
            infos := db3.infos.map fun r =>
              if r.online_beatmap_id = h.request.beatmap_id then
                { r with hash := some h.hash }
              else r }
      else db3

/-- `insert_hashes`: drain the channel of hash results; every iteration
runs the database statements and then materializes the on-disk link.
Any error — including a link-materialization failure — propagates out of
the function via `?`, aborting the loop. -/
def insert_hashes (lazer : FsPath) :
    LazerDb × Fs → List HashProcessed → Except Unit (LazerDb × Fs)
  | st, [] => Except.ok st
  | st, h :: rest =>
    match insertHashDb st.1 h with
    | Except.error e => Except.error e
    | Except.ok db' =>
      match materializeLink lazer st.2 h.hash h.request.full_path with
      | Except.error e => Except.error e
      | Except.ok fs' => insert_hashes lazer (db', fs') rest

/-- `main`'s sequencing around the Content Store Inserter (`main.rs`
lines 384–395): `insert_hashes(..)?` aborts `main` on an error, so
`transaction.commit()` — modelled by returning the final state — is
reached only when the whole loop succeeds. -/
def runContentStage (lazer : FsPath) (db : LazerDb) (fs : Fs)
    (results : List HashProcessed) : Option (LazerDb × Fs) :=
  match insert_hashes lazer (db, fs) results with
  | Except.error _ => none
  | Except.ok st => some st

/-- Whether an event is one the metadata scan reacts to. -/
def isBgOrVideo : BmEvent → Bool
  | BmEvent.background _ => true
  | BmEvent.video _ => true
  | BmEvent.other => false

/-- The claim's reading of the scan: the first background-or-video event
(whichever comes first) decides the entire result, the other field stays
empty. -/
def scanEventsSpec (events : List BmEvent) : Option String × Option String :=
  match events.find? isBgOrVideo with
  | some (BmEvent.background f) => (some f, none)
  | some (BmEvent.video f) => (none, some f)
  | _ => (none, none)

/-- **C9** (confirmed).  The metadata event scan stops at the first
`Background` or first `Video` event, whichever comes first, so at most
one of the background and video references is ever recorded: a
`Background` hit leaves the video field empty and vice versa. -/
theorem scanEvents_first_relevant_wins (events : List BmEvent) :
    scanEvents events = scanEventsSpec events ∧
    ¬((scanEvents events).1.isSome ∧ (scanEvents events).2.isSome) := by
  constructor
  · induction events with
    | nil => rfl
    | cons e rest ih =>
      cases e with
      | background f => simp [scanEvents, scanEventsSpec, isBgOrVideo, List.find?]
      | video f => simp [scanEvents, scanEventsSpec, isBgOrVideo, List.find?]
      | other => simpa [scanEvents, scanEventsSpec, isBgOrVideo, List.find?] using ih
  · induction events with
    | nil => simp [scanEvents]
    | cons e rest ih =>
      cases e with
      | background f => simp [scanEvents]
      | video f => simp [scanEvents]
      | other => simpa only [scanEvents] using ih

set_option maxRecDepth 4000 in
/-- **C10** (corrected).  The legacy-to-Unix timestamp conversion is
well-defined under the precondition that the tick count is a `u64` at
least `WIN_TO_UNIX_EPOCH` whose scaled difference fits `i64`: it then
yields exactly `100 * (ticks - WIN_TO_UNIX_EPOCH)`.  When the true
scaled difference exceeds `i64::MAX` but still fits `u64`, the
`try_into` check catches it and the error surfaces per entry.  (A
timestamp below the epoch delta wraps in the unsigned subtraction and is
not specially rejected; the wrapped value may itself fail the `i64`
conversion — see the counterexample at `ticks = 0`.) -/
theorem legacyTicks_conversion_cases (ticks : Nat) (h64 : ticks < U64_MOD)
    (hge : WIN_TO_UNIX_EPOCH ≤ ticks) :
    (100 * (ticks - WIN_TO_UNIX_EPOCH) ≤ I64_MAX →
      legacyTicksToUnixNanos ticks =
        Except.ok (100 * (ticks - WIN_TO_UNIX_EPOCH))) ∧
    (I64_MAX < 100 * (ticks - WIN_TO_UNIX_EPOCH) →
      100 * (ticks - WIN_TO_UNIX_EPOCH) < U64_MOD →
      legacyTicksToUnixNanos ticks = Except.error ()) := by
  have hdiff : (ticks + U64_MOD - WIN_TO_UNIX_EPOCH) % U64_MOD =
      ticks - WIN_TO_UNIX_EPOCH := by
    have h1 : ticks + U64_MOD - WIN_TO_UNIX_EPOCH =
        (ticks - WIN_TO_UNIX_EPOCH) + U64_MOD := by
      have : WIN_TO_UNIX_EPOCH ≤ U64_MOD := by decide
      omega
    rw [h1, Nat.add_mod_right, Nat.mod_eq_of_lt (by omega)]
  constructor
  · intro hle
    have hlt : (ticks - WIN_TO_UNIX_EPOCH) * 100 < U64_MOD := by
      have : I64_MAX < U64_MOD := by decide
      omega
    simp only [legacyTicksToUnixNanos, hdiff, Nat.mod_eq_of_lt hlt]
    rw [if_pos (by omega)]
    exact congrArg Except.ok (Nat.mul_comm _ _)
  · intro hgt hlt
    have hlt' : (ticks - WIN_TO_UNIX_EPOCH) * 100 < U64_MOD := by omega
    simp only [legacyTicksToUnixNanos, hdiff, Nat.mod_eq_of_lt hlt']
    rw [if_neg (by omega)]

/-- Witness for `legacyTicks_conversion_cases` at `ticks =
WIN_TO_UNIX_EPOCH + 10`. -/
theorem legacyTicks_conversion_cases_witness :
    legacyTicksToUnixNanos (WIN_TO_UNIX_EPOCH + 10) =
      Except.ok (100 * (WIN_TO_UNIX_EPOCH + 10 - WIN_TO_UNIX_EPOCH)) :=
  (legacyTicks_conversion_cases (WIN_TO_UNIX_EPOCH + 10) (by decide)
    (by omega)).1 (by decide)

/-- **C10** counterexample.  `ticks = 0` lies below the epoch delta; the
claim says such a timestamp underflows "rather than produce an error",
but the wrapped value fails the `i64` conversion, so the conversion
*does* return the per-entry error here. -/
theorem legacyTicks_underflow_errors_at_zero :
    0 < WIN_TO_UNIX_EPOCH ∧ legacyTicksToUnixNanos 0 = Except.error () := by
  constructor
  · decide
  · rfl

theorem mem_hsInsert {s : List Nat} {x y : Nat} :
    y ∈ hsInsert s x ↔ y ∈ s ∨ y = x := by
  unfold hsInsert
  by_cases h : s.contains x = true
  · rw [if_pos h]
    have hx : x ∈ s := by simpa using h
    constructor
    · exact Or.inl
    · rintro (hy | rfl)
      · exact hy
      · exact hx
  · rw [if_neg h]
    simp

theorem mem_foldl_hsInsert (l : List DbBeatmap) (s : List Nat) (x : Nat) :
    x ∈ l.foldl (fun s bm => hsInsert s bm.beatmap_id) s ↔
      x ∈ s ∨ ∃ bm ∈ l, bm.beatmap_id = x := by
  induction l generalizing s with
  | nil => simp
  | cons b rest ih =>
    simp only [List.foldl_cons, ih, mem_hsInsert, List.mem_cons]
    constructor
    · rintro ((hs | rfl) | ⟨bm, hbm, rfl⟩)
      · exact Or.inl hs
      · exact Or.inr ⟨b, Or.inl rfl, rfl⟩
      · exact Or.inr ⟨bm, Or.inr hbm, rfl⟩
    · rintro (hs | ⟨bm, (rfl | hbm), rfl⟩)
      · exact Or.inl (Or.inl hs)
      · exact Or.inl (Or.inr rfl)
      · exact Or.inr ⟨bm, hbm, rfl⟩

theorem mem_foldl_hsRemove (l : List Nat) (s : List Nat) (x : Nat) :
    x ∈ l.foldl hsRemove s ↔ x ∈ s ∧ x ∉ l := by
  induction l generalizing s with
  | nil => simp
  | cons a rest ih =>
    simp only [List.foldl_cons, ih, hsRemove, List.mem_filter, List.mem_cons]
    constructor
    · rintro ⟨⟨hs, hne⟩, hrest⟩
      have hxa : x ≠ a := by simpa using hne
      refine ⟨hs, fun hm => ?_⟩
      rcases hm with rfl | hmem
      · exact hxa rfl
      · exact hrest hmem
    · rintro ⟨hs, hni⟩
      refine ⟨⟨hs, ?_⟩, fun hmem => hni (Or.inr hmem)⟩
      simpa using fun h => hni (Or.inl h)

/-- The claim's selection predicate: the entry id is absent from the
target set, is not the unsubmitted sentinel `0`, and the group id is not
the ungrouped sentinel `u32::MAX`. -/
def selectionKeeps (lazer_beatmaps : List Nat) (bm : DbBeatmap) : Bool :=
  !lazer_beatmaps.contains bm.beatmap_id &&
    bm.beatmap_id ≠ 0 && bm.beatmap_set_id ≠ U32_MAX

theorem contains_eq_decide_mem (l : List Nat) (x : Nat) :
    l.contains x = decide (x ∈ l) := by
  simp [List.contains, List.elem_eq_mem]

/-- **C4** (confirmed).  The Selection Filter returns exactly the legacy
entries whose id is absent from the target id set, not `0`, and whose
group id is not `u32::MAX` (a permutation of the filtered input, so
multiplicity is preserved), ordered by entry id ascending.  The
embedding is a pure function of its inputs (no side effects). -/
theorem get_beatmaps_selects_missing_sorted (beatmaps : List DbBeatmap)
    (lazer_beatmaps : List Nat) :
    ((get_beatmaps beatmaps lazer_beatmaps).2.2).Perm
        (beatmaps.filter (selectionKeeps lazer_beatmaps)) ∧
    ((get_beatmaps beatmaps lazer_beatmaps).2.2).Sorted
        (fun a b => a.beatmap_id ≤ b.beatmap_id) := by
  have hfilter :
      (beatmaps.filter fun bm =>
        ((lazer_beatmaps.foldl hsRemove
            (beatmaps.foldl (fun s bm => hsInsert s bm.beatmap_id) [])).contains
          bm.beatmap_id) &&
          bm.beatmap_id ≠ 0 && bm.beatmap_set_id ≠ U32_MAX) =
      beatmaps.filter (selectionKeeps lazer_beatmaps) := by
    refine List.filter_congr ?_
    intro bm hbm
    have hmem : bm.beatmap_id ∈
        lazer_beatmaps.foldl hsRemove
          (beatmaps.foldl (fun s bm => hsInsert s bm.beatmap_id) []) ↔
        bm.beatmap_id ∉ lazer_beatmaps := by
      rw [mem_foldl_hsRemove, mem_foldl_hsInsert]
      simp only [List.not_mem_nil, false_or]
      exact and_iff_right ⟨bm, hbm, rfl⟩
    simp only [selectionKeeps, contains_eq_decide_mem]
    by_cases hl : bm.beatmap_id ∈ lazer_beatmaps
    · simp [hl, hmem]
    · simp [hl, hmem]
  constructor
  · simp only [get_beatmaps]
    rw [hfilter]
    exact List.mergeSort_perm _ _
  · simp only [get_beatmaps]
    have hs := @List.sorted_mergeSort DbBeatmap
      (fun a b => decide (a.beatmap_id ≤ b.beatmap_id))
      (by intro a b c h1 h2; simp only [decide_eq_true_eq] at *; omega)
      (by intro a b; simp only [Bool.or_eq_true, decide_eq_true_eq]; omega)
      (beatmaps.filter fun bm =>
        ((lazer_beatmaps.foldl hsRemove
            (beatmaps.foldl (fun s bm => hsInsert s bm.beatmap_id) [])).contains
          bm.beatmap_id) &&
          bm.beatmap_id ≠ 0 && bm.beatmap_set_id ≠ U32_MAX)
    exact hs.imp (fun h => of_decide_eq_true h)

/-- **C3** (confirmed).  Given a successful timestamp conversion, the
`BeatmapSetInfo` upsert (a) inserts a fresh row when no row with the
entry's group id exists (whatever the force flag), (b) overwrites
exactly the row with that group id — keeping its rowid — when one exists
and the entry is primary (`force = true`), and (c) leaves the database
completely untouched when a row exists and the entry is not primary. -/
theorem insert_beatmapset_info_upsert_policy (db : LazerDb)
    (db_beatmap : DbBeatmap) (metadata_id : Nat) (random_hash : String)
    (date_added : Nat)
    (hdate : legacyTicksToUnixNanos db_beatmap.modification_date =
      Except.ok date_added) :
    ((∀ r ∈ db.set_infos, r.online_set_id ≠ db_beatmap.beatmap_set_id) →
      ∀ force,
        insert_beatmapset_info db db_beatmap metadata_id force random_hash =
          Except.ok
            ({ db with
                set_infos := db.set_infos ++
                  [setInfoFields db_beatmap metadata_id random_hash date_added
                    db.next_set_info_id]
                next_set_info_id := db.next_set_info_id + 1 },
              db.next_set_info_id)) ∧
    (∀ r0,
      db.set_infos.find?
          (fun r => r.online_set_id = db_beatmap.beatmap_set_id) = some r0 →
      insert_beatmapset_info db db_beatmap metadata_id true random_hash =
        Except.ok
          ({ db with
              set_infos := db.set_infos.map fun r =>
                if r.online_set_id = db_beatmap.beatmap_set_id then
                  setInfoFields db_beatmap metadata_id random_hash date_added r.id
                else r },
            r0.id)) ∧
    (∀ r0,
      db.set_infos.find?
          (fun r => r.online_set_id = db_beatmap.beatmap_set_id) = some r0 →
      insert_beatmapset_info db db_beatmap metadata_id false random_hash =
        Except.ok (db, r0.id)) := by
  refine ⟨?_, ?_, ?_⟩
  · intro hnone force
    have hfind : db.set_infos.find?
        (fun r => r.online_set_id = db_beatmap.beatmap_set_id) = none := by
      rw [List.find?_eq_none]
      intro r hr
      simpa using hnone r hr
    have hany : (db.set_infos.any
        fun r => r.online_set_id = db_beatmap.beatmap_set_id) = false := by
      rw [List.any_eq_false]
      intro r hr
      simpa using hnone r hr
    simp [insert_beatmapset_info, hfind, hany, hdate]
  · intro r0 hfind
    have hany : (db.set_infos.any
        fun r => r.online_set_id = db_beatmap.beatmap_set_id) = true := by
      rw [List.any_eq_true]
      refine ⟨r0, List.mem_of_find?_eq_some hfind, ?_⟩
      have hp := List.find?_some hfind
      simpa using hp
    simp [insert_beatmapset_info, hfind, hany, hdate]
  · intro r0 hfind
    simp [insert_beatmapset_info, hfind]

/-- A concrete `BeatmapSetInfo` row used by witnesses. -/
def rowW : SetInfoRow :=
  { id := 1, delete_pending := false, hash := "aa", metadata_id := 1,
    online_set_id := 10, protected_flag := false, status := 1, date_added := 0 }

/-- A concrete legacy catalog record used by witnesses. -/
def dbmW : DbBeatmap :=
  { beatmap_id := 1, beatmap_set_id := 10, folder_name := "10",
    beatmap_file_name := "a.osu", modification_date := WIN_TO_UNIX_EPOCH,
    ranked_status := 4, hash := "md5", total_time := 0,
    std_star_rating := [], std_taiko_rating := [], std_ctb_rating := [],
    std_mania_rating := [] }

/-- A target database already holding the group-10 row. -/
def dbW : LazerDb := { emptyDb with set_infos := [rowW], next_set_info_id := 2 }

/-- Witness for `insert_beatmapset_info_upsert_policy`: against `dbW`,
a non-primary entry of group 10 changes nothing, while a primary entry
overwrites the row in place. -/
theorem insert_beatmapset_info_upsert_policy_witness :
    insert_beatmapset_info dbW dbmW 1 false "bb" = Except.ok (dbW, 1) ∧
    insert_beatmapset_info dbW dbmW 1 true "bb" =
      Except.ok ({ dbW with set_infos := [setInfoFields dbmW 1 "bb" 0 1] }, 1) := by
  constructor
  · exact (insert_beatmapset_info_upsert_policy dbW dbmW 1 "bb" 0 rfl).2.2 rowW rfl
  · have h := (insert_beatmapset_info_upsert_policy dbW dbmW 1 "bb" 0 rfl).2.1 rowW rfl
    simpa [dbW, rowW, emptyDb] using h

theorem filter_key_length_one {α β : Type} [DecidableEq β] (f : α → β) :
    ∀ (l : List α) (a : α), a ∈ l → (l.map f).Nodup →
      (l.filter fun x => f x = f a).length = 1 := by
  intro l a ha hnodup
  induction l with
  | nil => cases ha
  | cons b rest ih =>
    rw [List.map_cons, List.nodup_cons] at hnodup
    obtain ⟨hb, hrest⟩ := hnodup
    rcases List.mem_cons.mp ha with rfl | ha'
    · rw [List.filter_cons, if_pos (by simp)]
      have hempty : rest.filter (fun x => decide (f x = f a)) = [] := by
        rw [List.filter_eq_nil_iff]
        intro x hx
        simp only [decide_eq_true_eq]
        exact fun hfx => hb (hfx ▸ List.mem_map_of_mem f hx)
      simp [hempty]
    · have hfba : ¬ f b = f a := fun h => hb (h ▸ List.mem_map_of_mem f ha')
      rw [List.filter_cons, if_neg (by simpa using hfba)]
      exact ih ha' hrest

/-- A concrete decoded beatmap used by witnesses. -/
def bmW : Beatmap :=
  { beatmap_id := 1, artist := "art", artist_unicode := "art",
    audio_filename := "a.mp3", creator := "c", preview_time := 0,
    source := "", tags := [], title := "t", title_unicode := "t",
    events := [],
    difficulty :=
      { approach_rate := 9, circle_size := 4, hp_drain_rate := 5,
        overall_difficulty := 8, slider_multiplier := 1,
        slider_tick_rate := 1 },
    timing_points := [], mode := Mode.osu, audio_leadin := 0,
    beat_divisor := 4, countdown := false, distance_spacing := 1,
    grid_size := 4, letterbox_in_breaks := false, stack_leniency := 0,
    bookmarks := [], timeline_zoom := 1, difficulty_name := "d",
    widescreen_storyboard := false, epilepsy_warning := false }

theorem find?_filter_keep_ne (fs : Fs) (p q : FsPath) (hne : q ≠ p) :
    (fs.filter fun e => e.1 ≠ p).find? (fun e => e.1 = q) =
      fs.find? (fun e => e.1 = q) := by
  induction fs with
  | nil => rfl
  | cons e rest ih =>
    by_cases hp : e.1 = p
    · rw [List.filter_cons, if_neg (by simp [hp])]
      rw [ih, List.find?_cons_of_neg _ (by simp [hp]; exact Ne.symm hne)]
    · rw [List.filter_cons, if_pos (by simp [hp])]
      by_cases hq : e.1 = q
      · rw [List.find?_cons_of_pos _ (by simp [hq]),
          List.find?_cons_of_pos _ (by simp [hq])]
      · rw [List.find?_cons_of_neg _ (by simp [hq]),
          List.find?_cons_of_neg _ (by simp [hq])]
        exact ih

theorem fsLookup_fsSet_self (fs : Fs) (p : FsPath) (o : FsObj) :
    fsLookup (fsSet fs p o) p = some o := by
  unfold fsLookup fsSet
  rw [List.find?_append]
  have h1 : (fs.filter fun e => e.1 ≠ p).find? (fun e => e.1 = p) = none := by
    rw [List.find?_eq_none]
    intro e he
    have := (List.mem_filter.mp he).2
    simpa using this
  rw [h1]
  simp

theorem fsLookup_fsSet_ne (fs : Fs) (p q : FsPath) (o : FsObj) (hne : q ≠ p) :
    fsLookup (fsSet fs p o) q = fsLookup fs q := by
  unfold fsLookup fsSet
  rw [List.find?_append, find?_filter_keep_ne fs p q hne]
  cases hfind : fs.find? (fun e => e.1 = q) with
  | some e => rfl
  | none =>
    have hpq : ¬ p = q := fun h => hne h.symm
    simp [hpq]

theorem createDirAllGo_preserves :
    ∀ (cs : List String) (fs fs₁ : Fs) (done : FsPath),
      createDirAllGo fs done cs = Except.ok fs₁ →
      ∀ q o, fsLookup fs q = some o → fsLookup fs₁ q = some o := by
  intro cs
  induction cs with
  | nil =>
    intro fs fs₁ done h q o ho
    simp only [createDirAllGo, Except.ok.injEq] at h
    exact h ▸ ho
  | cons c rest ih =>
    intro fs fs₁ done h q o ho
    cases hcur : fsLookup fs (done ++ [c]) with
    | some obj =>
      cases obj with
      | dir =>
        simp only [createDirAllGo, hcur] at h
        exact ih fs fs₁ (done ++ [c]) h q o ho
      | file =>
        simp only [createDirAllGo, hcur] at h
        exact Except.noConfusion h
      | symlink t =>
        simp only [createDirAllGo, hcur] at h
        exact Except.noConfusion h
    | none =>
      simp only [createDirAllGo, hcur] at h
      have hne : q ≠ done ++ [c] := by
        intro heq
        rw [heq, hcur] at ho
        exact Option.noConfusion ho
      have hqo : fsLookup (fsSet fs (done ++ [c]) FsObj.dir) q = some o := by
        rw [fsLookup_fsSet_ne _ _ _ _ hne]
        exact ho
      exact ih _ fs₁ _ h q o hqo

theorem createDirAllGo_dirs :
    ∀ (cs : List String) (fs fs₁ : Fs) (done : FsPath),
      createDirAllGo fs done cs = Except.ok fs₁ →
      ∀ n, 0 < n → n ≤ cs.length →
        fsLookup fs₁ (done ++ cs.take n) = some FsObj.dir := by
  intro cs
  induction cs with
  | nil =>
    intro fs fs₁ done h n hn hle
    simp at hle
    omega
  | cons c rest ih =>
    intro fs fs₁ done h n hn hle
    cases hcur : fsLookup fs (done ++ [c]) with
    | some obj =>
      cases obj with
      | dir =>
        simp only [createDirAllGo, hcur] at h
        cases n with
        | zero => omega
        | succ k =>
          cases k with
          | zero =>
            simpa using createDirAllGo_preserves rest fs fs₁ (done ++ [c]) h
              (done ++ [c]) FsObj.dir hcur
          | succ k' =>
            have hk := ih fs fs₁ (done ++ [c]) h (k' + 1) (by omega)
              (by simp at hle; omega)
            simpa [List.append_assoc] using hk
      | file =>
        simp only [createDirAllGo, hcur] at h
        exact Except.noConfusion h
      | symlink t =>
        simp only [createDirAllGo, hcur] at h
        exact Except.noConfusion h
    | none =>
      simp only [createDirAllGo, hcur] at h
      have hbase : fsLookup (fsSet fs (done ++ [c]) FsObj.dir) (done ++ [c]) =
          some FsObj.dir := fsLookup_fsSet_self fs (done ++ [c]) FsObj.dir
      cases n with
      | zero => omega
      | succ k =>
        cases k with
        | zero =>
          simpa using createDirAllGo_preserves rest _ fs₁ (done ++ [c]) h
            (done ++ [c]) FsObj.dir hbase
        | succ k' =>
          have hk := ih _ fs₁ (done ++ [c]) h (k' + 1) (by omega)
            (by simp at hle; omega)
          simpa [List.append_assoc] using hk

theorem createDirAllGo_of_dirs :
    ∀ (cs : List String) (fs : Fs) (done : FsPath),
      (∀ n, 0 < n → n ≤ cs.length →
        fsLookup fs (done ++ cs.take n) = some FsObj.dir) →
      createDirAllGo fs done cs = Except.ok fs := by
  intro cs
  induction cs with
  | nil => intro fs done h; rfl
  | cons c rest ih =>
    intro fs done h
    have hc : fsLookup fs (done ++ [c]) = some FsObj.dir := by
      have h1 := h 1 (by omega) (by simp)
      simpa using h1
    simp only [createDirAllGo, hc]
    refine ih fs (done ++ [c]) (fun n hn hle => ?_)
    have hs := h (n + 1) (by omega) (by simp; omega)
    simpa [List.append_assoc] using hs

theorem linkDir_take_ne_linkPath (lazer : FsPath) (hash : String) (n : Nat) :
    (linkDir lazer hash).take n ≠ linkPath lazer hash := by
  intro h
  have hlen := congrArg List.length h
  rw [List.length_take, linkPath, List.length_append] at hlen
  simp at hlen
  omega

/-- **C7** (confirmed).  Materializing the content-addressed link at
`files/<hex[0..1]>/<hex[0..2]>/<hex>` is idempotent: after a successful
run, running it again for the same digest neither errors nor changes the
store (parent directories are found already present, the existing link
object is kept); and whenever some object already sits at the link path,
it is left untouched — the link is created only onto an empty path. -/
theorem materializeLink_idempotent (lazer : FsPath) (fs fs' : Fs)
    (hash full_path : String)
    (h1 : materializeLink lazer fs hash full_path = Except.ok fs') :
    materializeLink lazer fs' hash full_path = Except.ok fs' ∧
    ∀ o, fsLookup fs (linkPath lazer hash) = some o →
      fsLookup fs' (linkPath lazer hash) = some o := by
  rcases hcd : createDirAll fs (linkDir lazer hash) with e | fs₁
  · simp only [materializeLink, hcd] at h1
    exact Except.noConfusion h1
  · simp only [materializeLink, hcd] at h1
    have hdirs : ∀ n, 0 < n → n ≤ (linkDir lazer hash).length →
        fsLookup fs₁ ((linkDir lazer hash).take n) = some FsObj.dir := by
      intro n hn hle
      have hd := createDirAllGo_dirs (linkDir lazer hash) fs fs₁ [] hcd n hn hle
      simpa using hd
    by_cases hguard : ((readLink fs₁ (linkPath lazer hash)).isNone &&
        !pathExists fs₁ (linkPath lazer hash)) = true
    · -- the symlink was created
      rw [if_pos hguard] at h1
      have hnone : fsLookup fs₁ (linkPath lazer hash) = none := by
        have h2 := (Bool.and_eq_true_iff.mp hguard).2
        simp only [pathExists, Bool.not_eq_true'] at h2
        exact Option.not_isSome_iff_eq_none.mp (by simp [h2])
      have hdrop : (linkPath lazer hash).dropLast = linkDir lazer hash := by
        rw [linkPath, List.dropLast_concat]
      have hparent : fsLookup fs₁ (linkPath lazer hash).dropLast =
          some FsObj.dir := by
        rw [hdrop]
        have hl : 0 < (linkDir lazer hash).length := by
          simp [linkDir]
        simpa using hdirs (linkDir lazer hash).length hl (Nat.le_refl _)
      simp only [symlinkCreate, hnone, hparent] at h1
      have hfs' : fs' =
          fsSet fs₁ (linkPath lazer hash) (FsObj.symlink full_path) := by
        injection h1 with h1
        exact h1.symm
      constructor
      · have hdirs' : ∀ n, 0 < n → n ≤ (linkDir lazer hash).length →
            fsLookup fs' ((linkDir lazer hash).take n) = some FsObj.dir := by
          intro n hn hle
          rw [hfs', fsLookup_fsSet_ne _ _ _ _ (linkDir_take_ne_linkPath _ _ n)]
          exact hdirs n hn hle
        have hcd2 : createDirAll fs' (linkDir lazer hash) = Except.ok fs' :=
          createDirAllGo_of_dirs (linkDir lazer hash) fs' []
            (fun n hn hle => by simpa using hdirs' n hn hle)
        simp only [materializeLink, hcd2]
        have hread : readLink fs' (linkPath lazer hash) = some full_path := by
          rw [hfs', readLink, fsLookup_fsSet_self]
        rw [if_neg (by simp [hread])]
      · intro o ho
        have hsome := createDirAllGo_preserves (linkDir lazer hash) fs fs₁ []
          hcd _ _ ho
        rw [hnone] at hsome
        exact Option.noConfusion hsome
    · -- something already sat at the link path: nothing was written
      rw [if_neg hguard] at h1
      have hfs' : fs' = fs₁ := by
        injection h1 with h1
        exact h1.symm
      subst hfs'
      constructor
      · have hcd2 : createDirAll fs' (linkDir lazer hash) = Except.ok fs' :=
          createDirAllGo_of_dirs (linkDir lazer hash) fs' []
            (fun n hn hle => by simpa using hdirs n hn hle)
        simp only [materializeLink, hcd2]
        rw [if_neg hguard]
      · intro o ho
        exact createDirAllGo_preserves (linkDir lazer hash) fs fs' [] hcd _ _ ho

/-- The store produced by one successful materialization of digest
`"ab"` into an empty store rooted at `[]`. -/
def fsW : Fs :=
  [(["files"], FsObj.dir), (["files", "a"], FsObj.dir),
   (["files", "a", "ab"], FsObj.dir),
   (["files", "a", "ab", "ab"], FsObj.symlink "src")]

/-- Witness for `materializeLink_idempotent`: the hypothesis is a
concrete successful first run, and rerunning it is a no-op. -/
theorem materializeLink_idempotent_witness :
    materializeLink [] fsW "ab" "src" = Except.ok fsW :=
  (materializeLink_idempotent [] [] fsW "ab" "src" (by rfl)).1

/-- A concrete hash request used by witnesses and counterexamples. -/
def reqW : HashRequest :=
  { beatmap_id := 1, beatmapset_id := 10, folder_name := "10",
    file_name := "a.osu", beatmapset_info_id := 1,
    stripped_path := "a.osu", full_path := "Songs/10/a.osu" }

/-- A concrete hash result for digest `"ab"`. -/
def hashResW : HashProcessed := { request := reqW, hash := "ab" }

/-- A store in which a regular file sits where the `files` directory
should be, so `create_dir_all` fails. -/
def fsBlockedW : Fs := [(["files"], FsObj.file)]

/-- **C1** counterexample.  One hash result whose on-disk link cannot be
materialized (`create_dir_all` fails because a regular file occupies the
`files` path): `insert_hashes` propagates the error through `?`, `main`
aborts, and `transaction.commit()` is never reached (`runContentStage`
returns `none`) — the failure is neither logged-and-skipped nor
non-fatal, and it does prevent the shared transaction from
committing. -/
theorem insert_hashes_link_failure_fatal_cx :
    runContentStage [] emptyDb fsBlockedW [hashResW] = none := by rfl

/-- **C1** (amended).  A failure to materialize the content-addressed
link for a hash result propagates as an error out of `insert_hashes`
(the remaining results are not processed), so the run is aborted and the
shared transaction is never committed: link creation is not best-effort
per file. -/
theorem insert_hashes_link_failure_aborts (lazer : FsPath)
    (db db' : LazerDb) (fs : Fs) (h : HashProcessed)
    (rest : List HashProcessed)
    (hdb : insertHashDb db h = Except.ok db')
    (hlink : materializeLink lazer fs h.hash h.request.full_path =
      Except.error ()) :
    insert_hashes lazer (db, fs) (h :: rest) = Except.error () := by
  simp only [insert_hashes, hdb, hlink]

/-- Witness for `insert_hashes_link_failure_aborts` at the concrete
blocked store. -/
theorem insert_hashes_link_failure_aborts_witness :
    insert_hashes [] (emptyDb, fsBlockedW) [hashResW] = Except.error () :=
  insert_hashes_link_failure_aborts [] emptyDb _ fsBlockedW hashResW []
    (by rfl) (by rfl)

/-- Well-formedness of the content store tables: hashes unique, row ids
unique and below the counter, and mapping rows only reference ids below
the counter. -/
def fileWf (db : LazerDb) : Prop :=
  (db.file_infos.map fun r => r.hash).Nodup ∧
  (db.file_infos.map fun r => r.id).Nodup ∧
  (∀ r ∈ db.file_infos, r.id < db.next_file_info_id) ∧
  ∀ m ∈ db.set_files, m.file_info_id < db.next_file_info_id

/-- The reference-count invariant: each `FileInfo` row's count equals
the number of `BeatmapSetFileInfo` rows referencing it. -/
def refCountInv (db : LazerDb) : Prop :=
  ∀ r ∈ db.file_infos,
    r.reference_count =
      (db.set_files.filter fun m => m.file_info_id = r.id).length

/-- What holds of the Content Store Inserter's state when its loop
completes: the store is still well-formed, reference counts match the
mappings, every processed digest has exactly one row, and no reference
count ever decreased. -/
def contentPost (db0 : LazerDb) (results : List HashProcessed) :
    Except Unit (LazerDb × Fs) → Prop
  | Except.error _ => True
  | Except.ok st =>
      fileWf st.1 ∧ refCountInv st.1 ∧
      (∀ res ∈ results,
        (st.1.file_infos.filter fun r => r.hash = res.hash).length = 1) ∧
      ∀ r ∈ db0.file_infos, ∃ r' ∈ st.1.file_infos,
        r'.id = r.id ∧ r'.hash = r.hash ∧
          r.reference_count ≤ r'.reference_count

theorem fiInsertOrIgnore_set_files (db : LazerDb) (hash : String) :
    (fiInsertOrIgnore db hash).set_files = db.set_files := by
  unfold fiInsertOrIgnore
  split <;> rfl

theorem fiInsertOrIgnore_infos (db : LazerDb) (hash : String) :
    (fiInsertOrIgnore db hash).infos = db.infos := by
  unfold fiInsertOrIgnore
  split <;> rfl

theorem fiBump_set_files (db : LazerDb) (hash : String) :
    (fiBump db hash).set_files = db.set_files := rfl

theorem fiBump_next (db : LazerDb) (hash : String) :
    (fiBump db hash).next_file_info_id = db.next_file_info_id := rfl

theorem fiBump_map_hash (db : LazerDb) (hash : String) :
    ((fiBump db hash).file_infos.map fun r => r.hash) =
      db.file_infos.map fun r => r.hash := by
  unfold fiBump
  rw [List.map_map]
  refine List.map_congr_left ?_
  intro r hr
  by_cases hrh : r.hash = hash <;> simp [hrh]

theorem fiBump_map_id (db : LazerDb) (hash : String) :
    ((fiBump db hash).file_infos.map fun r => r.id) =
      db.file_infos.map fun r => r.id := by
  unfold fiBump
  rw [List.map_map]
  refine List.map_congr_left ?_
  intro r hr
  by_cases hrh : r.hash = hash <;> simp [hrh]

theorem mem_fiBump_of_mem (db : LazerDb) (hash : String) {r : FileInfoRow}
    (hr : r ∈ db.file_infos) :
    (if r.hash = hash then
        { r with reference_count := r.reference_count + 1 } else r) ∈
      (fiBump db hash).file_infos := by
  unfold fiBump
  exact List.mem_map_of_mem _ hr

theorem mem_fiBump_chars (db : LazerDb) (hash : String) {r' : FileInfoRow}
    (hr' : r' ∈ (fiBump db hash).file_infos) :
    ∃ r ∈ db.file_infos, r'.id = r.id ∧ r'.hash = r.hash ∧
      r'.reference_count =
        (if r.hash = hash then r.reference_count + 1 else r.reference_count) := by
  unfold fiBump at hr'
  obtain ⟨r, hr, hre⟩ := List.mem_map.mp hr'
  refine ⟨r, hr, ?_⟩
  by_cases hrh : r.hash = hash <;> simp [hrh] at hre <;> simp [← hre, hrh]

theorem fiInsertOrIgnore_facts (db : LazerDb) (hash : String)
    (hwf : fileWf db) (hinv : refCountInv db) :
    ((fiInsertOrIgnore db hash).file_infos.map fun r => r.hash).Nodup ∧
    ((fiInsertOrIgnore db hash).file_infos.map fun r => r.id).Nodup ∧
    (∀ r ∈ (fiInsertOrIgnore db hash).file_infos,
      r.id < (fiInsertOrIgnore db hash).next_file_info_id) ∧
    (∀ m ∈ db.set_files,
      m.file_info_id < (fiInsertOrIgnore db hash).next_file_info_id) ∧
    (∃ r ∈ (fiInsertOrIgnore db hash).file_infos, r.hash = hash) ∧
    (∀ r ∈ (fiInsertOrIgnore db hash).file_infos,
      r.reference_count =
        (db.set_files.filter fun m => m.file_info_id = r.id).length) ∧
    ∀ r ∈ db.file_infos, r ∈ (fiInsertOrIgnore db hash).file_infos := by
  obtain ⟨hnd_hash, hnd_id, hbound, hmbound⟩ := hwf
  by_cases hany : (db.file_infos.any fun r => r.hash = hash) = true
  · obtain ⟨r, hr, hp⟩ := List.any_eq_true.mp hany
    simp only [fiInsertOrIgnore, hany, if_true]
    exact ⟨hnd_hash, hnd_id, hbound, hmbound,
      ⟨r, hr, by simpa using hp⟩, hinv, fun r hr => hr⟩
  · have hnotmem : hash ∉ db.file_infos.map fun r => r.hash := by
      intro hmem
      obtain ⟨r, hr, hfr⟩ := List.mem_map.mp hmem
      exact hany (List.any_eq_true.mpr ⟨r, hr, by simpa using hfr⟩)
    have hidnot : db.next_file_info_id ∉ db.file_infos.map fun r => r.id := by
      intro hmem
      obtain ⟨r, hr, hfr⟩ := List.mem_map.mp hmem
      exact (Nat.ne_of_lt (hbound r hr)) hfr
    simp only [fiInsertOrIgnore, hany, if_false, Bool.false_eq_true]
    refine ⟨?_, ?_, ?_, ?_, ?_, ?_, ?_⟩
    · rw [List.map_append, List.nodup_append]
      refine ⟨hnd_hash, by simp, ?_⟩
      intro a ha hb
      simp only [List.map_cons, List.map_nil, List.mem_singleton] at hb
      subst hb
      exact hnotmem ha
    · rw [List.map_append, List.nodup_append]
      refine ⟨hnd_id, by simp, ?_⟩
      intro a ha hb
      simp only [List.map_cons, List.map_nil, List.mem_singleton] at hb
      subst hb
      exact hidnot ha
    · intro r hr
      rcases List.mem_append.mp hr with hr | hr
      · exact Nat.lt_succ_of_lt (hbound r hr)
      · simp only [List.mem_singleton] at hr
        subst hr
        exact Nat.lt_succ_self _
    · intro m hm
      exact Nat.lt_succ_of_lt (hmbound m hm)
    · exact ⟨{ id := db.next_file_info_id, hash, reference_count := 0 },
        List.mem_append_right _ (by simp), rfl⟩
    · intro r hr
      rcases List.mem_append.mp hr with hr | hr
      · exact hinv r hr
      · simp only [List.mem_singleton] at hr
        subst hr
        have hfil : (db.set_files.filter
            fun m => m.file_info_id = db.next_file_info_id) = [] := by
          rw [List.filter_eq_nil_iff]
          intro m hm
          simp only [decide_eq_true_eq]
          exact Nat.ne_of_lt (hmbound m hm)
        simp [hfil]
    · intro r hr
      exact List.mem_append_left _ hr

theorem insertHashDb_components (db : LazerDb) (h : HashProcessed)
    {row : FileInfoRow}
    (hfind : (fiBump (fiInsertOrIgnore db h.hash) h.hash).file_infos.find?
        (fun r => r.hash = h.hash) = some row) :
    ∃ db', insertHashDb db h = Except.ok db' ∧
      db'.file_infos = (fiBump (fiInsertOrIgnore db h.hash) h.hash).file_infos ∧
      db'.set_files = db.set_files ++
        [{ beatmapset_info_id := h.request.beatmapset_info_id,
           file_info_id := row.id, filename := h.request.stripped_path }] ∧
      db'.next_file_info_id = (fiInsertOrIgnore db h.hash).next_file_info_id := by
  simp only [insertHashDb, hfind]
  by_cases hsp : h.request.stripped_path = h.request.file_name
  · rw [if_pos hsp]
    refine ⟨_, rfl, rfl, ?_, rfl⟩
    simp [fiBump_set_files, fiInsertOrIgnore_set_files]
  · rw [if_neg hsp]
    refine ⟨_, rfl, rfl, ?_, rfl⟩
    simp [fiBump_set_files, fiInsertOrIgnore_set_files]

theorem insertHashDb_step (db : LazerDb) (h : HashProcessed)
    (hwf : fileWf db) (hinv : refCountInv db) :
    ∃ db', insertHashDb db h = Except.ok db' ∧ fileWf db' ∧ refCountInv db' ∧
      (∃ r' ∈ db'.file_infos, r'.hash = h.hash) ∧
      ∀ r ∈ db.file_infos, ∃ r' ∈ db'.file_infos,
        r'.id = r.id ∧ r'.hash = r.hash ∧
          r.reference_count ≤ r'.reference_count := by
  obtain ⟨F1, F2, F3, F4, F5, F6, F7⟩ := fiInsertOrIgnore_facts db h.hash hwf hinv
  obtain ⟨r₀, hr₀, hr₀h⟩ := F5
  have hex2 : ∃ r' ∈ (fiBump (fiInsertOrIgnore db h.hash) h.hash).file_infos,
      r'.hash = h.hash := by
    refine ⟨_, mem_fiBump_of_mem _ _ hr₀, ?_⟩
    by_cases hc : r₀.hash = h.hash <;> simp [hc, hr₀h]
  cases hfind : (fiBump (fiInsertOrIgnore db h.hash) h.hash).file_infos.find?
      (fun r => r.hash = h.hash) with
  | none =>
    obtain ⟨r', hr', hr'h⟩ := hex2
    have hcontra := List.find?_eq_none.mp hfind r' hr'
    simp [hr'h] at hcontra
  | some row =>
    have hrow_mem := List.mem_of_find?_eq_some hfind
    have hrow_hash : row.hash = h.hash := by
      have := List.find?_some hfind
      simpa using this
    obtain ⟨db', heq, hfi, hsf, hnext⟩ := insertHashDb_components db h hfind
    obtain ⟨rr, hrr, hrr_id, hrr_hash, hrr_rc⟩ := mem_fiBump_chars _ _ hrow_mem
    have hrr_h : rr.hash = h.hash := by rw [← hrr_hash, hrow_hash]
    refine ⟨db', heq, ⟨?_, ?_, ?_, ?_⟩, ?_, ?_, ?_⟩
    · rw [hfi, fiBump_map_hash]
      exact F1
    · rw [hfi, fiBump_map_id]
      exact F2
    · intro r hr
      rw [hfi] at hr
      obtain ⟨r1, hr1, hid, _, _⟩ := mem_fiBump_chars _ _ hr
      rw [hnext, hid]
      exact F3 r1 hr1
    · intro m hm
      rw [hsf] at hm
      rcases List.mem_append.mp hm with hm | hm
      · rw [hnext]
        exact F4 m hm
      · simp only [List.mem_singleton] at hm
        subst hm
        rw [hnext]
        simp only [hrr_id]
        exact F3 rr hrr
    · intro r' hr'
      rw [hfi] at hr'
      obtain ⟨r1, hr1, hid, hhash, hrc⟩ := mem_fiBump_chars _ _ hr'
      rw [hsf, List.filter_append, List.length_append]
      by_cases hcase : r1.hash = h.hash
      · have hr1rr : r1 = rr :=
          List.inj_on_of_nodup_map F1 hr1 hrr (by rw [hcase, hrr_h])
        have hrowid : row.id = r1.id := by rw [hrr_id, ← hr1rr]
        rw [hrc, if_pos hcase, F6 r1 hr1, hid]
        simp [hrowid]
      · have hr1ne : rr ≠ r1 := by
          intro hrr1
          rw [← hrr1] at hcase
          exact hcase hrr_h
        have hidne : row.id ≠ r1.id := by
          intro hcontra
          rw [hrr_id] at hcontra
          exact hr1ne (List.inj_on_of_nodup_map F2 hrr hr1 hcontra)
        rw [hrc, if_neg hcase, F6 r1 hr1, hid]
        simp [hidne]
    · refine ⟨row, ?_, hrow_hash⟩
      rw [hfi]
      exact hrow_mem
    · intro r hr
      have hr1 := F7 r hr
      refine ⟨_, by rw [hfi]; exact mem_fiBump_of_mem _ _ hr1, ?_, ?_, ?_⟩ <;>
        by_cases hrh : r.hash = h.hash <;> simp [hrh]

/-- **C2** (confirmed).  Whenever the Content Store Inserter's loop
completes over a sequence of hash results — starting from a well-formed
store whose reference counts match its mappings — it preserves both
invariants, every processed digest ends up with exactly one `FileInfo`
row, and no row's reference count ever decreases (each result performs
the insert-or-ignore with count `0` and the unconditional `+1`
increment; there is no decrement anywhere in the pipeline). -/
theorem insert_hashes_dedup_invariant (lazer : FsPath) (db : LazerDb)
    (fs : Fs) (results : List HashProcessed) (hwf : fileWf db)
    (hinv : refCountInv db) :
    contentPost db results (insert_hashes lazer (db, fs) results) := by
  induction results generalizing db fs with
  | nil =>
    exact ⟨hwf, hinv, by simp, fun r hr => ⟨r, hr, rfl, rfl, Nat.le_refl _⟩⟩
  | cons h rest ih =>
    obtain ⟨db', hdb, hwf', hinv', hex, hmono⟩ := insertHashDb_step db h hwf hinv
    simp only [insert_hashes, hdb]
    cases hlink : materializeLink lazer fs h.hash h.request.full_path with
    | error e =>
      show contentPost db (h :: rest) (Except.error e)
      trivial
    | ok fs' =>
      show contentPost db (h :: rest) (insert_hashes lazer (db', fs') rest)
      have hrec := ih db' fs' hwf' hinv'
      cases hres : insert_hashes lazer (db', fs') rest with
      | error e => trivial
      | ok st =>
        rw [hres] at hrec
        obtain ⟨hwf'', hinv'', hcount, hmono'⟩ := hrec
        show fileWf st.1 ∧ refCountInv st.1 ∧
          (∀ res ∈ h :: rest,
            (st.1.file_infos.filter fun r => r.hash = res.hash).length = 1) ∧
          ∀ r ∈ db.file_infos, ∃ r' ∈ st.1.file_infos,
            r'.id = r.id ∧ r'.hash = r.hash ∧
              r.reference_count ≤ r'.reference_count
        refine ⟨hwf'', hinv'', ?_, ?_⟩
        · intro res hresmem
          rcases List.mem_cons.mp hresmem with rfl | hm
          · obtain ⟨r', hr', hr'h⟩ := hex
            obtain ⟨r'', hr'', _, hh'', _⟩ := hmono' r' hr'
            have hone := filter_key_length_one (fun r : FileInfoRow => r.hash)
              st.1.file_infos r'' hr'' hwf''.1
            have hkey : r''.hash = res.hash := by rw [hh'', hr'h]
            simpa [hkey] using hone
          · exact hcount res hm
        · intro r hr
          obtain ⟨r1, hr1, hid1, hhash1, hrc1⟩ := hmono r hr
          obtain ⟨r2, hr2, hid2, hhash2, hrc2⟩ := hmono' r1 hr1
          exact ⟨r2, hr2, hid2.trans hid1, hhash2.trans hhash1,
            Nat.le_trans hrc1 hrc2⟩

/-- Witness for `insert_hashes_dedup_invariant`: one result against the
empty store (both invariant hypotheses hold trivially there). -/
theorem insert_hashes_dedup_invariant_witness :
    contentPost emptyDb [hashResW]
      (insert_hashes [] (emptyDb, []) [hashResW]) :=
  insert_hashes_dedup_invariant [] emptyDb [] [hashResW]
    (by refine ⟨?_, ?_, ?_, ?_⟩ <;> simp [emptyDb])
    (by intro r hr; simp [emptyDb] at hr)

/-- A decoded entry ready for insertion (primary, clean timestamp). -/
def ctxW : BeatmapProcessed :=
  { db_beatmap := dbmW, beatmap := bmW, is_main := true,
    mapper_lookup := none, random_hash := "cc" }

/-- A decoded entry whose set-row insert fails: its modification
timestamp `0` lies below the Windows→Unix epoch delta, so the `DateAdded`
conversion errors. -/
def ctxErrW : BeatmapProcessed :=
  { db_beatmap := { dbmW with modification_date := 0 }, beatmap := bmW,
    is_main := true, mapper_lookup := none, random_hash := "cc" }

/-- A directory walk that immediately yields a `WalkDir` error. -/
def walkFnErrW : String → List (Except Unit WalkEntry) :=
  fun _ => [Except.error ()]

/-- **C6** counterexample.  A primary entry whose insert succeeds but
whose folder walk yields one `WalkDir` error: the `entry?` in
`insert_beatmaps` propagates it, the loop aborts, `main`'s
`insert_beatmaps(..)?` returns before `transaction.commit()` — so an
error arising from one entry's files does unwind the shared
transaction. -/
theorem insert_beatmaps_walk_error_cx :
    insert_beatmaps "Songs" walkFnErrW (emptyDb, []) [ctxW] =
      Except.error () := by rfl

/-- **C6** (amended).  A failure in the per-entry insert steps
(difficulty, metadata, set, entry row) is logged and processing
continues with the next entry (the rows already inserted for the failed
entry stay, there being no per-entry savepoint); however, an error from
the directory walk of a successfully inserted primary entry propagates
out of `insert_beatmaps` and aborts the run before the transaction can
commit. -/
theorem insert_beatmaps_error_policy (stable_songs : String)
    (walkFn : String → List (Except Unit WalkEntry)) (db : LazerDb)
    (reqs : List HashRequest) (ctx : BeatmapProcessed)
    (rest : List BeatmapProcessed) :
    ((insert_beatmap db ctx).2 = Except.error () →
      insert_beatmaps stable_songs walkFn (db, reqs) (ctx :: rest) =
        insert_beatmaps stable_songs walkFn
          ((insert_beatmap db ctx).1, reqs) rest) ∧
    ∀ sid, (insert_beatmap db ctx).2 = Except.ok sid → ctx.is_main = true →
      walkFiles (walkFn (stable_songs ++ "/" ++ ctx.db_beatmap.folder_name)) =
        Except.error () →
      insert_beatmaps stable_songs walkFn (db, reqs) (ctx :: rest) =
        Except.error () := by
  constructor
  · intro herr
    simp only [insert_beatmaps, herr]
  · intro sid hok hmain hwalk
    simp only [insert_beatmaps, hok, hmain, if_true, hwalk]

/-- Witness for `insert_beatmaps_error_policy`: a failing timestamp
conversion is skipped over, and a walk error aborts. -/
theorem insert_beatmaps_error_policy_witness :
    (insert_beatmaps "Songs" walkFnErrW (emptyDb, []) [ctxErrW] =
      insert_beatmaps "Songs" walkFnErrW
        ((insert_beatmap emptyDb ctxErrW).1, []) []) ∧
    insert_beatmaps "Songs" walkFnErrW (emptyDb, [reqW]) [ctxW] =
      Except.error () := by
  constructor
  · exact (insert_beatmaps_error_policy "Songs" walkFnErrW emptyDb []
      ctxErrW []).1 (by rfl)
  · exact (insert_beatmaps_error_policy "Songs" walkFnErrW emptyDb [reqW]
      ctxW []).2 1 (by rfl) rfl (by rfl)

theorem tagMain_map_fst (bs : List DbBeatmap) :
    ∀ seen, (tagMain bs seen).map Prod.fst = bs := by
  induction bs with
  | nil => intro seen; rfl
  | cons bm rest ih =>
    intro seen
    unfold tagMain
    by_cases hc : seen.contains bm.beatmap_set_id = true
    · rw [if_pos hc]
      simp [ih]
    · rw [if_neg hc]
      simp [ih]

theorem tagMain_get? (bs : List DbBeatmap) :
    ∀ (seen : List Nat) (i : Nat) (bm : DbBeatmap), bs[i]? = some bm →
      (tagMain bs seen)[i]? =
        some (bm, !(seen.contains bm.beatmap_set_id ||
          ((bs.take i).map fun b => b.beatmap_set_id).contains
            bm.beatmap_set_id)) := by
  induction bs with
  | nil =>
    intro seen i bm h
    simp at h
  | cons b rest ih =>
    intro seen i bm h
    cases i with
    | zero =>
      simp only [List.getElem?_cons_zero, Option.some.injEq] at h
      subst h
      unfold tagMain
      by_cases hc : seen.contains b.beatmap_set_id = true
      · rw [if_pos hc]
        have hmem : b.beatmap_set_id ∈ seen := by simpa using hc
        simp [hmem]
      · rw [if_neg hc]
        have hmem : b.beatmap_set_id ∉ seen := by simpa using hc
        simp [hmem]
    | succ i' =>
      simp only [List.getElem?_cons_succ] at h
      unfold tagMain
      by_cases hc : seen.contains b.beatmap_set_id = true
      · rw [if_pos hc]
        simp only [List.getElem?_cons_succ]
        rw [ih seen i' bm h]
        simp only [List.take_succ_cons, List.map_cons, Option.some.injEq,
          Prod.mk.injEq, true_and]
        by_cases hbe : b.beatmap_set_id = bm.beatmap_set_id
        · have hmem : bm.beatmap_set_id ∈ seen := by
            have hcm : b.beatmap_set_id ∈ seen := by simpa using hc
            rwa [hbe] at hcm
          simp [hmem]
        · have hne : ¬ bm.beatmap_set_id = b.beatmap_set_id :=
            fun hh => hbe hh.symm
          simp [hne]
      · rw [if_neg hc]
        simp only [List.getElem?_cons_succ]
        rw [ih (seen ++ [b.beatmap_set_id]) i' bm h]
        simp only [List.take_succ_cons, List.map_cons, Option.some.injEq,
          Prod.mk.injEq, true_and]
        by_cases h1 : bm.beatmap_set_id ∈ seen <;>
          by_cases h2 : bm.beatmap_set_id = b.beatmap_set_id <;>
            simp [h1, h2]

theorem walkFiles_ok (entries : List WalkEntry) :
    walkFiles (entries.map Except.ok) =
      Except.ok (entries.filter fun en => en.is_file) := by
  induction entries with
  | nil => rfl
  | cons en rest ih =>
    simp only [List.map_cons, walkFiles, ih, List.filter_cons]

/-- **C8** (confirmed).  The `isPrimary` tag is the in-order fold over
the filtered list: the entry at position `i` is tagged `true` exactly
when no earlier entry shares its set id (the tagging changes nothing
else about the list).  In the inserter loop, a main entry whose insert
succeeded — and only such an entry — triggers the folder walk, emitting
exactly one hash request per regular file of the walk (an error-free
walk yields precisely its regular-file entries); non-main entries and
entries whose insert failed emit nothing. -/
theorem beatmap_tagging_and_walk_gating (bs : List DbBeatmap)
    (stable_songs : String) (walkFn : String → List (Except Unit WalkEntry))
    (db : LazerDb) (reqs : List HashRequest) (ctx : BeatmapProcessed)
    (rest : List BeatmapProcessed) :
    ((tagMain bs []).map Prod.fst = bs) ∧
    (∀ i bm, bs[i]? = some bm →
      (tagMain bs [])[i]? = some (bm,
        !((bs.take i).map fun b => b.beatmap_set_id).contains
          bm.beatmap_set_id)) ∧
    (∀ entries : List WalkEntry,
      walkFiles (entries.map Except.ok) =
        Except.ok (entries.filter fun en => en.is_file)) ∧
    (∀ sid files, (insert_beatmap db ctx).2 = Except.ok sid →
      ctx.is_main = true →
      walkFiles (walkFn (stable_songs ++ "/" ++ ctx.db_beatmap.folder_name)) =
        Except.ok files →
      insert_beatmaps stable_songs walkFn (db, reqs) (ctx :: rest) =
        insert_beatmaps stable_songs walkFn
          ((insert_beatmap db ctx).1,
            reqs ++ files.map (mkHashRequest ctx sid
              (stable_songs ++ "/" ++ ctx.db_beatmap.folder_name))) rest) ∧
    (ctx.is_main = false →
      ∀ sid, (insert_beatmap db ctx).2 = Except.ok sid →
      insert_beatmaps stable_songs walkFn (db, reqs) (ctx :: rest) =
        insert_beatmaps stable_songs walkFn
          ((insert_beatmap db ctx).1, reqs) rest) ∧
    ((insert_beatmap db ctx).2 = Except.error () →
      insert_beatmaps stable_songs walkFn (db, reqs) (ctx :: rest) =
        insert_beatmaps stable_songs walkFn
          ((insert_beatmap db ctx).1, reqs) rest) := by
  refine ⟨tagMain_map_fst bs [], ?_, walkFiles_ok, ?_, ?_, ?_⟩
  · intro i bm h
    have ht := tagMain_get? bs [] i bm h
    simpa using ht
  · intro sid files hok hmain hwalk
    simp only [insert_beatmaps, hok, hmain, if_true, hwalk]
  · intro hmain sid hok
    simp only [insert_beatmaps, hok, hmain, if_false, Bool.false_eq_true]
  · intro herr
    simp only [insert_beatmaps, herr]

/-- A second legacy record of the same set (a non-primary variant). -/
def dbmW2 : DbBeatmap := { dbmW with beatmap_id := 2 }

/-- A regular file found by the walk. -/
def walkEntryW : WalkEntry := { rel := "a.osu", is_file := true }

/-- A directory entry (not a regular file). -/
def walkEntrySubW : WalkEntry := { rel := "sb", is_file := false }

/-- An error-free directory walk with one file and one directory. -/
def walkFnOkW : String → List (Except Unit WalkEntry) :=
  fun _ => [Except.ok walkEntryW, Except.ok walkEntrySubW]

/-- The regular files of `walkFnOkW`. -/
def walkFilesW : List WalkEntry := [walkEntryW]

/-- `ctxW` as a non-primary entry. -/
def ctxNMW : BeatmapProcessed := { ctxW with is_main := false }

/-- Witness for `beatmap_tagging_and_walk_gating`: the second variant of
a set is tagged non-primary; a primary entry's successful insert emits
one request per regular file, while a non-primary or failed entry emits
none. -/
theorem beatmap_tagging_and_walk_gating_witness :
    ((tagMain [dbmW, dbmW2] [])[1]? = some (dbmW2,
      !(([dbmW, dbmW2].take 1).map fun b => b.beatmap_set_id).contains
        dbmW2.beatmap_set_id)) ∧
    (insert_beatmaps "Songs" walkFnOkW (emptyDb, []) [ctxW] =
      insert_beatmaps "Songs" walkFnOkW
        ((insert_beatmap emptyDb ctxW).1,
          [] ++ walkFilesW.map (mkHashRequest ctxW 1
            ("Songs" ++ "/" ++ ctxW.db_beatmap.folder_name))) []) ∧
    (insert_beatmaps "Songs" walkFnOkW (emptyDb, []) [ctxNMW] =
      insert_beatmaps "Songs" walkFnOkW
        ((insert_beatmap emptyDb ctxNMW).1, []) []) ∧
    (insert_beatmaps "Songs" walkFnOkW (emptyDb, []) [ctxErrW] =
      insert_beatmaps "Songs" walkFnOkW
        ((insert_beatmap emptyDb ctxErrW).1, []) []) := by
  refine ⟨?_, ?_, ?_, ?_⟩
  · exact (beatmap_tagging_and_walk_gating [dbmW, dbmW2] "Songs" walkFnOkW
      emptyDb [] ctxW []).2.1 1 dbmW2 (by rfl)
  · exact (beatmap_tagging_and_walk_gating [dbmW, dbmW2] "Songs" walkFnOkW
      emptyDb [] ctxW []).2.2.2.1 1 walkFilesW (by rfl) rfl (by rfl)
  · exact (beatmap_tagging_and_walk_gating [dbmW, dbmW2] "Songs" walkFnOkW
      emptyDb [] ctxNMW []).2.2.2.2.1 rfl 1 (by rfl)
  · exact (beatmap_tagging_and_walk_gating [dbmW, dbmW2] "Songs" walkFnOkW
      emptyDb [] ctxErrW []).2.2.2.2.2 (by rfl)

theorem sqlEq_none_right (a : Option String) : sqlEq a none = false := by
  cases a <;> rfl

theorem scanEvents_at_most_one (events : List BmEvent) :
    (scanEvents events).1 = none ∨ (scanEvents events).2 = none := by
  induction events with
  | nil => exact Or.inl rfl
  | cons e rest ih =>
    cases e with
    | background f => exact Or.inr rfl
    | video f => exact Or.inl rfl
    | other => simpa only [scanEvents] using ih

/-- **C5** (code_bug).  The dedup lookup of `insert_beatmap_metadata` is
dead code: its `SELECT` compares `BackgroundFile = ?` and
`VideoFile = ?` with SQL `=`, the event scan sets at most one of the two
bound values, so at least one bind is always NULL and the `WHERE` clause
is never true.  Hence every decoded entry — whatever the database
already contains, and in particular for two entries with identical
metadata tuples — inserts a fresh `BeatmapMetadata` row; the metadata
reuse the spec describes never happens. -/
theorem insert_beatmap_metadata_never_dedups (db : LazerDb)
    (look : Option Int) (bm : Beatmap) :
    insert_beatmap_metadata db look bm =
      ({ db with
          metadata := db.metadata ++
            [{ id := db.next_metadata_id,
               fields := buildMetadataFields bm look }]
          next_metadata_id := db.next_metadata_id + 1 },
        db.next_metadata_id) := by
  have hone := scanEvents_at_most_one bm.events
  have hfind : db.metadata.find?
      (fun r => metadataSqlMatch r.fields (buildMetadataFields bm look)) =
        none := by
    rw [List.find?_eq_none]
    intro r hr
    rcases hone with h | h
    · simp [metadataSqlMatch, buildMetadataFields, h, sqlEq_none_right]
    · simp [metadataSqlMatch, buildMetadataFields, h, sqlEq_none_right]
  simp only [insert_beatmap_metadata, hfind]
